import Mathlib

/-!
Shallow embedding of the viewport projection, hit-testing, viewport
controller and label-collision logic of `GeoJSONMapRenderer`
(src/simplified-world-map.js) and of `UkraineFrontlineData.pointInPolygon`
(src/ukraine-frontline-data.js).

All JS numbers are modelled as rationals (`ℚ`), so every algebraic identity
proved here is exact; exact equality implies the `1e-6` tolerances the spec
asks for.  Square roots are avoided by carrying squared distances and by the
helper `sqrtLt` (see its doc comment), which keeps every definition
computable.
-/

namespace OsintMap

/-- Canvas pixel dimensions (`this.canvas.width` / `this.canvas.height`). -/
structure Canvas where
  width : ℚ
  height : ℚ
deriving DecidableEq

/-- Mutable renderer state from the `GeoJSONMapRenderer` constructor: zoom,
pan, and the drag bookkeeping fields. -/
structure MapState where
  zoom : ℚ
  panX : ℚ
  panY : ℚ
  isDragging : Bool
  dragStartX : ℚ
  dragStartY : ℚ
  lastPanX : ℚ
  lastPanY : ℚ
deriving DecidableEq

/-- Constructor value `this.minZoom = 1.0`. -/
def minZoom : ℚ := 1

/-- Constructor value `this.maxZoom = 25.0`. -/
def maxZoom : ℚ := 25

/-- Initial state from the constructor: `zoom = 1.0`, `panX = panY = 0`,
not dragging, all drag bookkeeping zero. -/
def initState : MapState :=
  { zoom := 1, panX := 0, panY := 0, isDragging := false,
    dragStartX := 0, dragStartY := 0, lastPanX := 0, lastPanY := 0 }

/-- `toCanvas(lat, lon)`: equirectangular base projection scaled around the
viewport center by `zoom` and translated by `(panX, panY)`.  Returns
`(x, y)`. -/
def toCanvas (c : Canvas) (s : MapState) (lat lon : ℚ) : ℚ × ℚ :=
  let baseX := c.width * ((lon + 180) / 360)
  let baseY := c.height * ((90 - lat) / 180)
  let centerX := c.width / 2
  let centerY := c.height / 2
  (centerX + (baseX - centerX) * s.zoom + s.panX,
   centerY + (baseY - centerY) * s.zoom + s.panY)

/-- `toLatLon(canvasX, canvasY)`: reverses zoom and pan, then converts the
base coordinates back to `(lat, lon)`. -/
def toLatLon (c : Canvas) (s : MapState) (canvasX canvasY : ℚ) : ℚ × ℚ :=
  let centerX := c.width / 2
  let centerY := c.height / 2
  let baseX := ((canvasX - s.panX) - centerX) / s.zoom + centerX
  let baseY := ((canvasY - s.panY) - centerY) / s.zoom + centerY
  (90 - (baseY / c.height) * 180, (baseX / c.width) * 360 - 180)

/-- `constrainPan()`: clamps `panX`/`panY` into `[-maxPan, maxPan]` with
`maxPan = (scaledDim - dim) / 2`. -/
def constrainPan (c : Canvas) (s : MapState) : MapState :=
  let maxPanX := (c.width * s.zoom - c.width) / 2
  let maxPanY := (c.height * s.zoom - c.height) / 2
  { s with panX := max (-maxPanX) (min maxPanX s.panX),
           panY := max (-maxPanY) (min maxPanY s.panY) }

/-- The clamped new zoom computed at the top of `handleWheel`:
`Math.max(minZoom, Math.min(maxZoom, zoom * (deltaY > 0 ? 0.9 : 1.1)))`. -/
def wheelNewZoom (s : MapState) (deltaY : ℚ) : ℚ :=
  let zoomFactor : ℚ := if deltaY > 0 then 9/10 else 11/10
  max minZoom (min maxZoom (s.zoom * zoomFactor))

/-- State inside `handleWheel`'s `if (newZoom !== this.zoom)` branch, just
before `constrainPan()`: the geo point under the cursor is captured with the
old state, the new zoom installed, and the pan adjusted by the residual
`mouse - toCanvas(geo)`. -/
def wheelPreClamp (c : Canvas) (s : MapState) (deltaY mouseX mouseY : ℚ) :
    MapState :=
  let ll := toLatLon c s mouseX mouseY
  let s1 := { s with zoom := wheelNewZoom s deltaY }
  let newPos := toCanvas c s1 ll.1 ll.2
  { s1 with panX := s1.panX + (mouseX - newPos.1),
            panY := s1.panY + (mouseY - newPos.2) }

/-- `handleWheel(e, mouseX, mouseY)`: no-op on the state when the clamped
new zoom equals the current zoom, otherwise zoom-to-cursor followed by
`constrainPan()`. -/
def handleWheel (c : Canvas) (s : MapState) (deltaY mouseX mouseY : ℚ) :
    MapState :=
  if wheelNewZoom s deltaY = s.zoom then s
  else constrainPan c (wheelPreClamp c s deltaY mouseX mouseY)

/-- `handleMouseDown(e, mouseX, mouseY)`: starts a drag, recording the drag
anchor and the current pan. -/
def handleMouseDown (s : MapState) (mouseX mouseY : ℚ) : MapState :=
  { s with isDragging := true, dragStartX := mouseX, dragStartY := mouseY,
           lastPanX := s.panX, lastPanY := s.panY }

/-- `handleMouseMove(mouseX, mouseY)`: while dragging, sets the pan to the
recorded pan plus the cursor delta and clamps it; otherwise no state
change.  (The source also returns a redraw flag, which carries no state.) -/
def handleMouseMove (c : Canvas) (s : MapState) (mouseX mouseY : ℚ) :
    MapState :=
  if s.isDragging then
    constrainPan c
      { s with panX := s.lastPanX + (mouseX - s.dragStartX),
               panY := s.lastPanY + (mouseY - s.dragStartY) }
  else s

/-- `handleMouseUp()`: ends the drag. -/
def handleMouseUp (s : MapState) : MapState :=
  { s with isDragging := false }

/-- `resetView()`: zoom back to 1.0 and pan to the origin. -/
def resetView (s : MapState) : MapState :=
  { s with zoom := 1, panX := 0, panY := 0 }

/-- One input event of the viewport controller. -/
inductive MapEvent where
  | wheel (deltaY mouseX mouseY : ℚ)
  | mouseDown (mouseX mouseY : ℚ)
  | mouseMove (mouseX mouseY : ℚ)
  | mouseUp
  | reset
deriving DecidableEq

/-- Dispatch one event to the corresponding handler. -/
def step (c : Canvas) (s : MapState) : MapEvent → MapState
  | .wheel deltaY mx my => handleWheel c s deltaY mx my
  | .mouseDown mx my => handleMouseDown s mx my
  | .mouseMove mx my => handleMouseMove c s mx my
  | .mouseUp => handleMouseUp s
  | .reset => resetView s

/-- Run a finite sequence of events from a state. -/
def runEvents (c : Canvas) (s : MapState) : List MapEvent → MapState
  | [] => s
  | e :: es => runEvents c (step c s e) es

/-- C1 -- Projection round-trip: for any geo point in valid range and any
valid view state (zoom clamped to `[minZoom, maxZoom]`, positive viewport),
`toLatLon` applied to `toCanvas` returns the point back.  Over `ℚ` the
identity is exact, which implies the spec's `1e-6` tolerance. -/
theorem toCanvas_toLatLon_roundtrip (c : Canvas) (s : MapState) (lat lon : ℚ)
    (hlat₁ : -90 ≤ lat) (hlat₂ : lat ≤ 90)
    (hlon₁ : -180 ≤ lon) (hlon₂ : lon ≤ 180)
    (hz₁ : minZoom ≤ s.zoom) (hz₂ : s.zoom ≤ maxZoom)
    (hw : 0 < c.width) (hh : 0 < c.height) :
    toLatLon c s (toCanvas c s lat lon).1 (toCanvas c s lat lon).2 =
      (lat, lon) := by
  have hz : s.zoom ≠ 0 := by
    have : (0:ℚ) < s.zoom := lt_of_lt_of_le one_pos hz₁
    exact ne_of_gt this
  have hw' : c.width ≠ 0 := ne_of_gt hw
  have hh' : c.height ≠ 0 := ne_of_gt hh
  simp only [toCanvas, toLatLon, Prod.mk.injEq]
  constructor
  · field_simp
    ring
  · field_simp
    ring

/-- Witness for C1 at a concrete valid input. -/
theorem toCanvas_toLatLon_roundtrip_witness :
    toLatLon ⟨800, 600⟩
      { initState with zoom := 2, panX := 5, panY := -7 }
      (toCanvas ⟨800, 600⟩
        { initState with zoom := 2, panX := 5, panY := -7 } 45 30).1
      (toCanvas ⟨800, 600⟩
        { initState with zoom := 2, panX := 5, panY := -7 } 45 30).2 =
      (45, 30) :=
  toCanvas_toLatLon_roundtrip ⟨800, 600⟩
    { initState with zoom := 2, panX := 5, panY := -7 } 45 30
    (by norm_num) (by norm_num) (by norm_num) (by norm_num)
    (by norm_num [minZoom]) (by norm_num [maxZoom]) (by norm_num) (by norm_num)

/-- The viewport invariant of the spec: zoom clamped to
`[minZoom, maxZoom]` and both pan components within the `constrainPan`
bounds. -/
def ViewInv (c : Canvas) (s : MapState) : Prop :=
  minZoom ≤ s.zoom ∧ s.zoom ≤ maxZoom ∧
  |s.panX| ≤ (c.width * s.zoom - c.width) / 2 ∧
  |s.panY| ≤ (c.height * s.zoom - c.height) / 2

theorem abs_clamp_le {m p : ℚ} (hm : 0 ≤ m) : |max (-m) (min m p)| ≤ m := by
  rw [abs_le]
  refine ⟨le_max_left _ _, max_le (by linarith) (min_le_left _ _)⟩

theorem maxPan_nonneg {w z : ℚ} (hw : 0 ≤ w) (hz : 1 ≤ z) :
    0 ≤ (w * z - w) / 2 := by nlinarith

theorem constrainPan_inv (c : Canvas) (s : MapState)
    (hw : 0 ≤ c.width) (hh : 0 ≤ c.height)
    (hz₁ : minZoom ≤ s.zoom) (hz₂ : s.zoom ≤ maxZoom) :
    ViewInv c (constrainPan c s) := by
  have hz1 : 1 ≤ s.zoom := by simpa [minZoom] using hz₁
  refine ⟨hz₁, hz₂, ?_, ?_⟩
  · exact abs_clamp_le (maxPan_nonneg hw hz1)
  · exact abs_clamp_le (maxPan_nonneg hh hz1)

theorem wheelNewZoom_mem (s : MapState) (deltaY : ℚ) :
    minZoom ≤ wheelNewZoom s deltaY ∧ wheelNewZoom s deltaY ≤ maxZoom := by
  unfold wheelNewZoom
  refine ⟨le_max_left _ _, max_le (by norm_num [minZoom, maxZoom])
    (min_le_left _ _)⟩

theorem step_inv (c : Canvas) (s : MapState) (e : MapEvent)
    (hw : 0 ≤ c.width) (hh : 0 ≤ c.height) (h : ViewInv c s) :
    ViewInv c (step c s e) := by
  obtain ⟨hz₁, hz₂, hx, hy⟩ := h
  cases e with
  | wheel deltaY mx my =>
      show ViewInv c (handleWheel c s deltaY mx my)
      unfold handleWheel
      split
      · exact ⟨hz₁, hz₂, hx, hy⟩
      · have hmem := wheelNewZoom_mem s deltaY
        exact constrainPan_inv c _ hw hh
          (by simpa [wheelPreClamp] using hmem.1)
          (by simpa [wheelPreClamp] using hmem.2)
  | mouseDown mx my => exact ⟨hz₁, hz₂, hx, hy⟩
  | mouseMove mx my =>
      show ViewInv c (handleMouseMove c s mx my)
      unfold handleMouseMove
      split
      · exact constrainPan_inv c _ hw hh hz₁ hz₂
      · exact ⟨hz₁, hz₂, hx, hy⟩
  | mouseUp => exact ⟨hz₁, hz₂, hx, hy⟩
  | reset =>
      show ViewInv c (resetView s)
      refine ⟨by norm_num [minZoom, resetView],
        by norm_num [maxZoom, resetView], ?_, ?_⟩
      all_goals simp [resetView, ViewInv]

theorem runEvents_inv (c : Canvas) (evs : List MapEvent) (s : MapState)
    (hw : 0 ≤ c.width) (hh : 0 ≤ c.height) (h : ViewInv c s) :
    ViewInv c (runEvents c s evs) := by
  induction evs generalizing s with
  | nil => exact h
  | cons e es ih => exact ih (step c s e) (step_inv c s e hw hh h)

theorem initState_inv (c : Canvas) : ViewInv c initState := by
  refine ⟨by norm_num [minZoom, initState],
    by norm_num [minZoom, maxZoom, initState], ?_, ?_⟩
  all_goals simp [initState]

/-- C3 -- Viewport invariant: starting from the initial view state, after
any finite sequence of wheel / mouse-down / mouse-move / mouse-up / reset
events the zoom stays in `[minZoom, maxZoom]`, both pan components stay
within the `constrainPan` bounds, and whenever the zoom is exactly
`minZoom` the pan is `(0, 0)`. -/
theorem viewport_invariant (c : Canvas) (evs : List MapEvent)
    (hw : 0 < c.width) (hh : 0 < c.height) :
    ViewInv c (runEvents c initState evs) ∧
      ((runEvents c initState evs).zoom = minZoom →
        (runEvents c initState evs).panX = 0 ∧
        (runEvents c initState evs).panY = 0) := by
  have hinv := runEvents_inv c evs initState (le_of_lt hw) (le_of_lt hh)
    (initState_inv c)
  refine ⟨hinv, fun hzoom => ?_⟩
  obtain ⟨_, _, hx, hy⟩ := hinv
  rw [hzoom] at hx hy
  constructor
  · have : |(runEvents c initState evs).panX| ≤ 0 := by
      simpa [minZoom] using hx
    simpa [abs_nonpos_iff] using this
  · have : |(runEvents c initState evs).panY| ≤ 0 := by
      simpa [minZoom] using hy
    simpa [abs_nonpos_iff] using this

/-- Witness for C3: a concrete canvas and event sequence. -/
theorem viewport_invariant_witness :
    0 < (800:ℚ) ∧ 0 < (600:ℚ) ∧
      (ViewInv ⟨800, 600⟩
        (runEvents ⟨800, 600⟩ initState
          [MapEvent.wheel (-1) 100 100, MapEvent.mouseDown 10 10,
           MapEvent.mouseMove 500 500, MapEvent.mouseUp]) ∧
        ((runEvents ⟨800, 600⟩ initState
          [MapEvent.wheel (-1) 100 100, MapEvent.mouseDown 10 10,
           MapEvent.mouseMove 500 500, MapEvent.mouseUp]).zoom = minZoom →
          (runEvents ⟨800, 600⟩ initState
            [MapEvent.wheel (-1) 100 100, MapEvent.mouseDown 10 10,
             MapEvent.mouseMove 500 500, MapEvent.mouseUp]).panX = 0 ∧
          (runEvents ⟨800, 600⟩ initState
            [MapEvent.wheel (-1) 100 100, MapEvent.mouseDown 10 10,
             MapEvent.mouseMove 500 500, MapEvent.mouseUp]).panY = 0)) :=
  ⟨by norm_num, by norm_num,
    viewport_invariant ⟨800, 600⟩
      [MapEvent.wheel (-1) 100 100, MapEvent.mouseDown 10 10,
       MapEvent.mouseMove 500 500, MapEvent.mouseUp]
      (by norm_num) (by norm_num)⟩

/-- C10 -- Saturated wheel event: when the multiplicatively scaled and
clamped new zoom equals the current zoom (zoom already at a limit), the
`if (newZoom !== this.zoom)` guard skips the whole body, so `handleWheel`
leaves zoom, panX and panY (the entire state) unchanged. -/
theorem handleWheel_saturated (c : Canvas) (s : MapState)
    (deltaY mouseX mouseY : ℚ)
    (h : wheelNewZoom s deltaY = s.zoom) :
    handleWheel c s deltaY mouseX mouseY = s := by
  simp [handleWheel, h]

/-- Witness for C10: zooming in at `maxZoom` keeps the state unchanged. -/
theorem handleWheel_saturated_witness :
    wheelNewZoom { initState with zoom := 25, panX := 3, panY := 4 } (-1) =
      ({ initState with zoom := 25, panX := 3, panY := 4 } : MapState).zoom ∧
    handleWheel ⟨800, 600⟩ { initState with zoom := 25, panX := 3, panY := 4 }
        (-1) 10 20 =
      { initState with zoom := 25, panX := 3, panY := 4 } :=
  ⟨by norm_num [wheelNewZoom, minZoom, maxZoom, initState],
    handleWheel_saturated ⟨800, 600⟩
      { initState with zoom := 25, panX := 3, panY := 4 } (-1) 10 20
      (by norm_num [wheelNewZoom, minZoom, maxZoom, initState])⟩

/-- Antimeridian handling inside `drawPolygon`: for `i > 0`, the point's
longitude is compared against the raw longitude of the immediately
preceding ring point (`const [prevLon] = ring[i - 1]`), and shifted by
`∓360` when the delta exceeds `180` in absolute value.  The ring data
itself is read-only; the adjusted value is local to the draw loop (here the
adjustment is a pure function returning a fresh list, matching that). -/
def adjustLon (prevLon lon : ℚ) : ℚ :=
  if lon - prevLon > 180 then lon - 360
  else if lon - prevLon < -180 then lon + 360
  else lon

/-- Tail of the adjusted-longitude list: each entry is `adjustLon` of the
raw previous entry (`ring[i - 1]`, not the adjusted one) and the current
entry, exactly as in the `drawPolygon` loop. -/
def adjustedLonsAux (prev : ℚ) : List ℚ → List ℚ
  | [] => []
  | l :: ls => adjustLon prev l :: adjustedLonsAux l ls

/-- The sequence of `adjustedLon` values produced by the `drawPolygon` loop
over a ring's longitudes (the first point is never adjusted). -/
def adjustedLons : List ℚ → List ℚ
  | [] => []
  | l :: ls => l :: adjustedLonsAux l ls

/-- Modelled from the spec: "adjust the later point's longitude by ∓360°
(continuing the running adjustment cumulatively across the ring)" — the
running offset is carried forward, so every point is compared against the
previously *adjusted* longitude and inherits the accumulated shift. -/
def adjustedLonsCumulativeAux (prevAdj offset : ℚ) : List ℚ → List ℚ
  | [] => []
  | l :: ls =>
      let cand := l + offset
      let adj := if cand - prevAdj > 180 then cand - 360
                 else if cand - prevAdj < -180 then cand + 360
                 else cand
      adj :: adjustedLonsCumulativeAux adj (adj - l) ls

/-- Modelled from the spec: cumulative antimeridian unwrapping of a whole
ring (first point unadjusted, offset carried across the ring). -/
def adjustedLonsCumulativeSpec : List ℚ → List ℚ
  | [] => []
  | l :: ls => l :: adjustedLonsCumulativeAux l 0 ls

/-- C2 counterexample: on the ring with longitudes `179, -179, -178` the
code adjusts the second point to `181` but compares the third point against
the raw `-179`, leaving it at `-178`: the running adjustment does NOT
continue cumulatively (the spec-modelled cumulative version yields `182`),
and the projected x-coordinates jump back across the map instead of
staying monotonic. -/
theorem adjustedLons_not_cumulative :
    adjustedLons [179, -179, -178] = [179, 181, -178] ∧
    adjustedLonsCumulativeSpec [179, -179, -178] = [179, 181, 182] ∧
    adjustedLons [179, -179, -178] ≠
      adjustedLonsCumulativeSpec [179, -179, -178] ∧
    ¬ ((toCanvas ⟨360, 180⟩ initState 0
          ((adjustedLons [179, -179, -178]).getD 1 0)).1 ≤
       (toCanvas ⟨360, 180⟩ initState 0
          ((adjustedLons [179, -179, -178]).getD 2 0)).1) := by
  have h1 : adjustedLons [179, -179, -178] = [179, 181, -178] := by
    norm_num [adjustedLons, adjustedLonsAux, adjustLon]
  have h2 : adjustedLonsCumulativeSpec [179, -179, -178] = [179, 181, 182] := by
    norm_num [adjustedLonsCumulativeSpec, adjustedLonsCumulativeAux]
  refine ⟨h1, h2, by rw [h1, h2]; norm_num, ?_⟩
  rw [h1]
  norm_num [toCanvas, initState, List.getD]

theorem adjustedLonsAux_shift (ls : List ℚ) :
    ∀ (prev : ℚ) (i : ℕ),
      (adjustedLonsAux prev ls).getD i 0 - ls.getD i 0 = 0 ∨
      (adjustedLonsAux prev ls).getD i 0 - ls.getD i 0 = -360 ∨
      (adjustedLonsAux prev ls).getD i 0 - ls.getD i 0 = 360 := by
  induction ls with
  | nil => intro prev i; left; simp [adjustedLonsAux]
  | cons l ls ih =>
      intro prev i
      cases i with
      | zero =>
          simp only [adjustedLonsAux, List.getD_cons_zero, adjustLon]
          split
          · right; left; ring
          · split
            · right; right; ring
            · left; ring
      | succ n =>
          simpa only [adjustedLonsAux, List.getD_cons_succ] using ih l n

/-- C2 (amended) -- Antimeridian adjustment as the code implements it: each
point past the first whose longitude delta to the raw immediately
preceding point exceeds 180° in absolute value is shifted by `∓360` (the
adjustment is per-point against the raw predecessor, NOT a cumulative
running adjustment); every adjusted longitude differs from the raw one by
exactly `0`, `360` or `-360`; pairs whose delta is within `±180` are left
unchanged; and for the single-crossing ring `179°, -179°` the adjusted
longitudes are `179, 181` with strictly increasing projected screen x. -/
theorem drawPolygon_antimeridian (lons : List ℚ) (i : ℕ) :
    ((adjustedLons lons).getD i 0 - lons.getD i 0 = 0 ∨
     (adjustedLons lons).getD i 0 - lons.getD i 0 = -360 ∨
     (adjustedLons lons).getD i 0 - lons.getD i 0 = 360) ∧
    adjustedLons [179, -179] = [179, 181] ∧
    (toCanvas ⟨360, 180⟩ initState 0 179).1 <
      (toCanvas ⟨360, 180⟩ initState 0 181).1 ∧
    (∀ prevLon lon : ℚ, |lon - prevLon| ≤ 180 → adjustLon prevLon lon = lon) := by
  refine ⟨?_, by norm_num [adjustedLons, adjustedLonsAux, adjustLon],
    by norm_num [toCanvas, initState], ?_⟩
  · cases lons with
    | nil => left; simp [adjustedLons]
    | cons l ls =>
        cases i with
        | zero => left; simp [adjustedLons]
        | succ n =>
            simpa only [adjustedLons, List.getD_cons_succ] using
              adjustedLonsAux_shift ls l n
  · intro prevLon lon h
    rw [abs_le] at h
    unfold adjustLon
    rw [if_neg (by linarith), if_neg (by linarith)]

/-- Witness for C2 (amended) at the concrete crossing ring. -/
theorem drawPolygon_antimeridian_witness :
    ((adjustedLons [179, -179]).getD 1 0 -
        ([(179:ℚ), -179].getD 1 0) = 0 ∨
     (adjustedLons [179, -179]).getD 1 0 -
        ([(179:ℚ), -179].getD 1 0) = -360 ∨
     (adjustedLons [179, -179]).getD 1 0 -
        ([(179:ℚ), -179].getD 1 0) = 360) ∧
    |(20:ℚ) - 10| ≤ 180 ∧ adjustLon 10 20 = 20 :=
  ⟨(drawPolygon_antimeridian [179, -179] 1).1, by norm_num,
    (drawPolygon_antimeridian [179, -179] 1).2.2.2 10 20 (by norm_num)⟩

/-- C4 counterexample: a valid view state (zoom `2`, pan at its clamp
limit `50` on a `100×100` canvas), cursor at `(99, 50)` inside the
viewport, and a zoom-out wheel event that changes the zoom.  After
`handleWheel` the pan clamp moves the pan from `49.9` to `40`, so the geo
point that was under the cursor reprojects to x `= 89.1 = 891/10`, not
`99`: off by `9.9`, far beyond any floating-point tolerance. -/
theorem handleWheel_anchor_counterexample :
    ViewInv ⟨100, 100⟩ { initState with zoom := 2, panX := 50 } ∧
    (0:ℚ) ≤ 99 ∧ (99:ℚ) ≤ 100 ∧
    wheelNewZoom { initState with zoom := 2, panX := 50 } 1 ≠
      ({ initState with zoom := 2, panX := 50 } : MapState).zoom ∧
    (toCanvas ⟨100, 100⟩
        (handleWheel ⟨100, 100⟩ { initState with zoom := 2, panX := 50 } 1 99 50)
        (toLatLon ⟨100, 100⟩ { initState with zoom := 2, panX := 50 } 99 50).1
        (toLatLon ⟨100, 100⟩ { initState with zoom := 2, panX := 50 } 99 50).2).1
      = 891/10 ∧
    ¬ |(891:ℚ)/10 - 99| ≤ 1/1000000 := by
  refine ⟨⟨by norm_num [minZoom, initState], by norm_num [maxZoom, initState],
      by norm_num [initState, abs_le], by norm_num [initState, abs_le]⟩,
    by norm_num, by norm_num,
    by norm_num [wheelNewZoom, minZoom, maxZoom, initState, max_def, min_def],
    ?_, by rw [abs_le]; norm_num⟩
  norm_num [handleWheel, wheelNewZoom, wheelPreClamp, constrainPan, toCanvas,
    toLatLon, minZoom, maxZoom, initState, max_def, min_def]

/-- C4 (amended) -- Zoom-anchor stability holds exactly on every wheel
event that changes the zoom and for which the subsequent `constrainPan` is
a no-op (the adjusted pan already lies within the clamp bounds): the geo
point under the cursor reprojects exactly onto the cursor.  When the clamp
does bind, the point may move (see the counterexample). -/
theorem handleWheel_anchor_stable (c : Canvas) (s : MapState)
    (deltaY mouseX mouseY : ℚ)
    (hne : wheelNewZoom s deltaY ≠ s.zoom)
    (hclamp : constrainPan c (wheelPreClamp c s deltaY mouseX mouseY) =
      wheelPreClamp c s deltaY mouseX mouseY) :
    toCanvas c (handleWheel c s deltaY mouseX mouseY)
      (toLatLon c s mouseX mouseY).1 (toLatLon c s mouseX mouseY).2 =
      (mouseX, mouseY) := by
  rw [handleWheel, if_neg hne, hclamp]
  simp only [wheelPreClamp, toCanvas, toLatLon, Prod.mk.injEq]
  constructor <;> ring

/-- Witness for C4 (amended): centered cursor on a centered view, zooming
out from zoom `2`; the clamp is a no-op and the anchor stays put. -/
theorem handleWheel_anchor_stable_witness :
    wheelNewZoom { initState with zoom := 2 } 1 ≠
      ({ initState with zoom := 2 } : MapState).zoom ∧
    constrainPan ⟨100, 100⟩
        (wheelPreClamp ⟨100, 100⟩ { initState with zoom := 2 } 1 50 50) =
      wheelPreClamp ⟨100, 100⟩ { initState with zoom := 2 } 1 50 50 ∧
    toCanvas ⟨100, 100⟩
        (handleWheel ⟨100, 100⟩ { initState with zoom := 2 } 1 50 50)
        (toLatLon ⟨100, 100⟩ { initState with zoom := 2 } 50 50).1
        (toLatLon ⟨100, 100⟩ { initState with zoom := 2 } 50 50).2 =
      (50, 50) := by
  have hne : wheelNewZoom { initState with zoom := 2 } 1 ≠
      ({ initState with zoom := 2 } : MapState).zoom := by
    norm_num [wheelNewZoom, minZoom, maxZoom, initState, max_def, min_def]
  have hclamp : constrainPan ⟨100, 100⟩
      (wheelPreClamp ⟨100, 100⟩ { initState with zoom := 2 } 1 50 50) =
      wheelPreClamp ⟨100, 100⟩ { initState with zoom := 2 } 1 50 50 := by
    norm_num [wheelPreClamp, constrainPan, toCanvas, toLatLon, wheelNewZoom,
      minZoom, maxZoom, initState, max_def, min_def]
  exact ⟨hne, hclamp,
    handleWheel_anchor_stable ⟨100, 100⟩ { initState with zoom := 2 } 1 50 50
      hne hclamp⟩

/-- One iteration of the ray-casting loop shared by
`GeoJSONMapRenderer.isPointInPolygon` and
`UkraineFrontlineData.pointInPolygon`: point `(x, y)`, current vertex `p`
(`ring[i]`), previous vertex `q` (`ring[j]`):
`((yi > y) !== (yj > y)) && (x < (xj - xi) * (y - yi) / (yj - yi) + xi)`.
When the parity conjunct is false the JS `&&` short-circuits, so the
division is only reached with `yj - yi ≠ 0`; here `ℚ` division is total,
and the conjunct being false makes the whole edge test false either way. -/
def rayCastEdge (x y : ℚ) (p q : ℚ × ℚ) : Bool :=
  (decide (p.2 > y) != decide (q.2 > y)) &&
  decide (x < (q.1 - p.1) * (y - p.2) / (q.2 - p.2) + p.1)

/-- The ray-casting loop `for (i = 0, j = ring.length - 1; i < ring.length;
j = i++)` with the `if (intersect) inside = !inside` parity toggle: edge
`i` pairs `ring[i]` with `ring[i-1]` (and `ring[0]` with the last vertex). -/
def rayCast (x y : ℚ) (ring : List (ℚ × ℚ)) : Bool :=
  (ring.zip (ring.getLastD (0, 0) :: ring)).foldl
    (fun inside e => if rayCastEdge x y e.1 e.2 then !inside else inside) false

/-- `GeoJSONMapRenderer.isPointInPolygon(lat, lon, coordinates)`: ray
casting over `coordinates[0]` (the outer ring) only.  (In JS an empty
coordinate array would fault on `undefined.length`; it is modelled as the
empty ring, which no claim depends on.) -/
def isPointInPolygon (lat lon : ℚ) (coordinates : List (List (ℚ × ℚ))) :
    Bool :=
  rayCast lon lat (coordinates.headD [])

/-- GeoJSON geometry of a country feature: `Polygon` or `MultiPolygon`. -/
inductive Geometry where
  | polygon (coordinates : List (List (ℚ × ℚ)))
  | multiPolygon (coordinates : List (List (List (ℚ × ℚ))))

/-- `GeoJSONMapRenderer.isPointInCountry(lat, lon, country)`: a `Polygon`
is tested directly; a `MultiPolygon` contains the point iff some part
does (the loop returns on the first hit). -/
def isPointInCountry (lat lon : ℚ) : Geometry → Bool
  | .polygon coords => isPointInPolygon lat lon coords
  | .multiPolygon polys => polys.any fun polygon => isPointInPolygon lat lon polygon

/-- `UkraineFrontlineData.pointInPolygon(point, polygon)`: the same ray
casting applied to the ring itself, with `point = [x, y]`. -/
def pointInPolygon (point : ℚ × ℚ) (polygon : List (ℚ × ℚ)) : Bool :=
  rayCast point.1 point.2 polygon

/-- C5 -- Point-in-polygon is even-odd ray casting over the first (outer)
ring only, so hole rings never affect the result; a feature contains a
point iff some part's outer ring does; and the square ring
`[(0,0),(0,10),(10,10),(10,0)]` contains `(5,5)` but not `(15,15)`. -/
theorem isPointInPolygon_spec (lat lon : ℚ) (ring : List (ℚ × ℚ))
    (rest : List (List (ℚ × ℚ))) (coords : List (List (ℚ × ℚ)))
    (parts : List (List (List (ℚ × ℚ)))) :
    isPointInPolygon lat lon (ring :: rest) =
      isPointInPolygon lat lon [ring] ∧
    isPointInCountry lat lon (Geometry.multiPolygon parts) =
      parts.any (fun part => isPointInPolygon lat lon part) ∧
    isPointInCountry lat lon (Geometry.polygon coords) =
      isPointInPolygon lat lon coords ∧
    isPointInPolygon 5 5 [[(0, 0), (0, 10), (10, 10), (10, 0)]] = true ∧
    isPointInPolygon 15 15 [[(0, 0), (0, 10), (10, 10), (10, 0)]] = false := by
  refine ⟨rfl, rfl, rfl, ?_, ?_⟩
  · norm_num [isPointInPolygon, rayCast, rayCastEdge, List.getLastD]
  · norm_num [isPointInPolygon, rayCast, rayCastEdge, List.getLastD]

theorem rayCastEdge_symm (x y : ℚ) (a b : ℚ × ℚ) :
    rayCastEdge x y a b = rayCastEdge x y b a := by
  by_cases hy : a.2 = b.2
  · simp [rayCastEdge, hy]
  · have hne : b.2 - a.2 ≠ 0 := sub_ne_zero.mpr (Ne.symm hy)
    have hne' : a.2 - b.2 ≠ 0 := sub_ne_zero.mpr hy
    have hbound : (b.1 - a.1) * (y - a.2) / (b.2 - a.2) + a.1 =
        (a.1 - b.1) * (y - b.2) / (a.2 - b.2) + b.1 := by
      field_simp
      ring
    unfold rayCastEdge
    rw [hbound]
    generalize decide (a.2 > y) = u
    generalize decide (b.2 > y) = v
    cases u <;> cases v <;> rfl

theorem rayCast_short (ring : List (ℚ × ℚ)) (hlen : ring.length < 3)
    (x y : ℚ) : rayCast x y ring = false := by
  match ring, hlen with
  | [], _ => rfl
  | [a], _ =>
      simp [rayCast, rayCastEdge, List.getLastD]
  | [a, b], _ =>
      simp only [rayCast, List.getLastD, List.zip, List.zipWith,
        List.foldl]
      rw [← rayCastEdge_symm x y a b]
      cases h : rayCastEdge x y a b <;> simp [h]
  | a :: b :: c :: t, h =>
      exact absurd h (by simp only [List.length_cons]; omega)

/-- C9 -- A degenerate ring (fewer than 3 points) is never-containing for
both point-in-polygon implementations, and the test is total: whenever the
parity conjunct of an edge test holds, the two vertex y-values differ, so
the slope division in that edge is by a nonzero denominator. -/
theorem degenerate_ring_never_contains (ring : List (ℚ × ℚ))
    (rest : List (List (ℚ × ℚ))) (lat lon : ℚ) (pt p q : ℚ × ℚ)
    (hlen : ring.length < 3)
    (hpar : (decide (p.2 > pt.2) != decide (q.2 > pt.2)) = true) :
    isPointInPolygon lat lon (ring :: rest) = false ∧
    pointInPolygon pt ring = false ∧
    q.2 - p.2 ≠ 0 := by
  refine ⟨rayCast_short ring hlen lon lat, rayCast_short ring hlen pt.1 pt.2, ?_⟩
  intro h
  rw [sub_eq_zero] at h
  rw [h, bne_self_eq_false] at hpar
  exact Bool.false_ne_true hpar

/-- Witness for C9 at a concrete degenerate ring and edge. -/
theorem degenerate_ring_never_contains_witness :
    isPointInPolygon 5 7 [[(0, 0), (10, 10)]] = false ∧
    pointInPolygon (2, 3) [(0, 0), (10, 10)] = false ∧
    ((9:ℚ) - 0 ≠ 0) := by
  have h := degenerate_ring_never_contains [(0, 0), (10, 10)] [] 5 7
    (2, 3) (0, 0) (5, 9) (by norm_num) (by norm_num)
  exact ⟨h.1, h.2.1, h.2.2⟩

/-- The scalar projection parameter of `distanceToLineSegment` after the
clamp `t = Math.max(0, Math.min(1, t))`. -/
def segT (px py x1 y1 x2 y2 : ℚ) : ℚ :=
  let dx := x2 - x1
  let dy := y2 - y1
  max 0 (min 1 (((px - x1) * dx + (py - y1) * dy) / (dx * dx + dy * dy)))

/-- `distanceToLineSegment(px, py, x1, y1, x2, y2)` with the final
`Math.sqrt` left off: the source returns the square root of this value.
Carrying the squared distance keeps the definition in `ℚ`; a concrete
distance `d` is stated as the squared value equalling `d * d`, and
threshold comparisons on the rooted value go through `sqrtLt` below. -/
def distanceToLineSegmentSq (px py x1 y1 x2 y2 : ℚ) : ℚ :=
  let dx := x2 - x1
  let dy := y2 - y1
  let lengthSquared := dx * dx + dy * dy
  if lengthSquared = 0 then
    (px - x1) * (px - x1) + (py - y1) * (py - y1)
  else
    let t := segT px py x1 y1 x2 y2
    let nearestX := x1 + t * dx
    let nearestY := y1 + t * dy
    (px - nearestX) * (px - nearestX) + (py - nearestY) * (py - nearestY)

/-- C6 -- Distance to a line segment: the degenerate segment `a == b`
yields the plain squared point-to-point distance, the projection parameter
is always clamped into `[0, 1]`, and on the spec's concrete cases the
squared distance equals `5·5`, `5·5` (clamped to the endpoint) and `4·4`
(degenerate), i.e. distances `5`, `5` and `4`. -/
theorem distanceToLineSegment_spec (px py x1 y1 x2 y2 : ℚ) :
    distanceToLineSegmentSq px py x1 y1 x1 y1 =
      (px - x1) * (px - x1) + (py - y1) * (py - y1) ∧
    0 ≤ segT px py x1 y1 x2 y2 ∧ segT px py x1 y1 x2 y2 ≤ 1 ∧
    distanceToLineSegmentSq 5 5 0 0 10 0 = 5 * 5 ∧
    distanceToLineSegmentSq (-5) 0 0 0 10 0 = 5 * 5 ∧
    distanceToLineSegmentSq 3 7 3 3 3 3 = 4 * 4 := by
  refine ⟨by simp [distanceToLineSegmentSq], le_max_left _ _,
    max_le zero_le_one (min_le_left _ _), ?_, ?_, ?_⟩
  · norm_num [distanceToLineSegmentSq, segT, max_def, min_def]
  · norm_num [distanceToLineSegmentSq, segT, max_def, min_def]
  · norm_num [distanceToLineSegmentSq, segT, max_def, min_def]

/-- Boolean form of `Math.sqrt dSq < threshold` for nonnegative `dSq`: a
nonnegative square root is below `threshold` iff `threshold` is positive
and `dSq < threshold²`.  This renders the source's `dist < threshold`
comparison inside `ℚ` without an irrational square root. -/
def sqrtLt (dSq threshold : ℚ) : Bool :=
  decide (0 < threshold) && decide (dSq < threshold * threshold)

/-- A shipping lane: an identifier standing for the lane record's metadata
plus its `coords` array of `[lat, lon]` pairs. -/
structure Lane where
  id : ℕ
  coords : List (ℚ × ℚ)
deriving DecidableEq

/-- Tail of the segment scan in `getShippingLaneAtPoint`: `prev` is
`coords[i]`, the head of the list `coords[i+1]`. -/
def anySegAux (lat lon threshold : ℚ) (prev : ℚ × ℚ) :
    List (ℚ × ℚ) → Bool
  | [] => false
  | p :: ps =>
      sqrtLt (distanceToLineSegmentSq lat lon prev.1 prev.2 p.1 p.2)
        threshold ||
      anySegAux lat lon threshold p ps

/-- Inner loop of `getShippingLaneAtPoint`: `for (i = 0; i <
coords.length - 1; i++)` testing segment `(coords[i], coords[i+1])` with
early return on a hit. -/
def anySegmentNear (lat lon threshold : ℚ) : List (ℚ × ℚ) → Bool
  | [] => false
  | p :: ps => anySegAux lat lon threshold p ps

/-- Outer loop of `getShippingLaneAtPoint`: first lane (in list order)
with a segment within the threshold, else `null`. -/
def findLaneNear (lat lon threshold : ℚ) : List Lane → Option Lane
  | [] => none
  | lane :: rest =>
      if anySegmentNear lat lon threshold lane.coords then some lane
      else findLaneNear lat lon threshold rest

/-- `getShippingLaneAtPoint(mouseX, mouseY)`, generalized over the lane
list (the source reads the hardcoded `getShippingLaneData()` array): the
cursor is unprojected with `toLatLon`, the threshold is `3 / zoom`, and
the scan returns the first lane with a segment within the threshold. -/
def getShippingLaneAtPoint (lanes : List Lane) (c : Canvas) (s : MapState)
    (mouseX mouseY : ℚ) : Option Lane :=
  let ll := toLatLon c s mouseX mouseY
  let threshold := 3 / s.zoom
  findLaneNear ll.1 ll.2 threshold lanes

theorem anySegAux_iff (lat lon t : ℚ) (ps : List (ℚ × ℚ)) :
    ∀ prev, anySegAux lat lon t prev ps = true ↔
      ∃ pr ∈ (prev :: ps).zip ps,
        sqrtLt (distanceToLineSegmentSq lat lon pr.1.1 pr.1.2 pr.2.1 pr.2.2)
          t = true := by
  induction ps with
  | nil => intro prev; simp [anySegAux]
  | cons p ps ih =>
      intro prev
      simp only [anySegAux, Bool.or_eq_true, ih p, List.zip_cons_cons,
        List.mem_cons]
      constructor
      · rintro (h | ⟨pr, hpr, h⟩)
        · exact ⟨(prev, p), Or.inl rfl, h⟩
        · exact ⟨pr, Or.inr hpr, h⟩
      · rintro ⟨pr, hpr | hpr, h⟩
        · left; rw [hpr] at h; exact h
        · right; exact ⟨pr, hpr, h⟩

theorem anySegmentNear_iff (lat lon t : ℚ) (coords : List (ℚ × ℚ)) :
    anySegmentNear lat lon t coords = true ↔
      ∃ pr ∈ coords.zip coords.tail,
        sqrtLt (distanceToLineSegmentSq lat lon pr.1.1 pr.1.2 pr.2.1 pr.2.2)
          t = true := by
  cases coords with
  | nil => simp [anySegmentNear]
  | cons p ps => exact anySegAux_iff lat lon t ps p

theorem findLaneNear_eq_none_iff (lat lon t : ℚ) (lanes : List Lane) :
    findLaneNear lat lon t lanes = none ↔
      ∀ lane ∈ lanes, anySegmentNear lat lon t lane.coords = false := by
  induction lanes with
  | nil => simp [findLaneNear]
  | cons l ls ih =>
      unfold findLaneNear
      split
      · rename_i h
        simp only [List.mem_cons]
        constructor
        · intro hc; exact absurd hc (by simp)
        · intro hall
          exact absurd h (by simp [hall l (Or.inl rfl)])
      · rename_i h
        rw [ih]
        simp only [List.mem_cons]
        constructor
        · intro hall lane hm
          rcases hm with rfl | hm
          · simpa using h
          · exact hall lane hm
        · intro hall lane hm
          exact hall lane (Or.inr hm)

theorem findLaneNear_eq_some (lat lon t : ℚ) (lanes : List Lane)
    (lane : Lane) :
    findLaneNear lat lon t lanes = some lane →
      ∃ pre post, lanes = pre ++ lane :: post ∧
        (∀ l' ∈ pre, anySegmentNear lat lon t l'.coords = false) ∧
        anySegmentNear lat lon t lane.coords = true := by
  induction lanes with
  | nil => intro h; exact absurd h (by simp [findLaneNear])
  | cons l ls ih =>
      intro h
      unfold findLaneNear at h
      split at h
      · rename_i hhit
        obtain rfl : l = lane := by injection h
        exact ⟨[], ls, rfl, by simp, hhit⟩
      · rename_i hmiss
        obtain ⟨pre, post, hsplit, hpre, hhit⟩ := ih h
        refine ⟨l :: pre, post, by rw [hsplit]; rfl, ?_, hhit⟩
        intro l' hl'
        rcases List.mem_cons.mp hl' with rfl | hl'
        · simpa using hmiss
        · exact hpre l' hl'

/-- C8 -- The polyline hover query: `getShippingLaneAtPoint` returns
`none` iff no segment of any lane is within the threshold `3 / zoom` of
the unprojected cursor, and returns `some lane` only for the first lane in
list order with a segment within that threshold; `sqrtLt (d·d) t ↔ d < t`
ties the squared comparison back to the source's rooted distance. -/
theorem getShippingLaneAtPoint_spec (lanes : List Lane) (c : Canvas)
    (s : MapState) (mouseX mouseY : ℚ) :
    (getShippingLaneAtPoint lanes c s mouseX mouseY = none ↔
      ∀ lane ∈ lanes, ∀ pr ∈ lane.coords.zip lane.coords.tail,
        sqrtLt (distanceToLineSegmentSq (toLatLon c s mouseX mouseY).1
            (toLatLon c s mouseX mouseY).2 pr.1.1 pr.1.2 pr.2.1 pr.2.2)
          (3 / s.zoom) = false) ∧
    (∀ lane, getShippingLaneAtPoint lanes c s mouseX mouseY = some lane →
      ∃ pre post, lanes = pre ++ lane :: post ∧
        (∀ l' ∈ pre, ∀ pr ∈ l'.coords.zip l'.coords.tail,
          sqrtLt (distanceToLineSegmentSq (toLatLon c s mouseX mouseY).1
              (toLatLon c s mouseX mouseY).2 pr.1.1 pr.1.2 pr.2.1 pr.2.2)
            (3 / s.zoom) = false) ∧
        ∃ pr ∈ lane.coords.zip lane.coords.tail,
          sqrtLt (distanceToLineSegmentSq (toLatLon c s mouseX mouseY).1
              (toLatLon c s mouseX mouseY).2 pr.1.1 pr.1.2 pr.2.1 pr.2.2)
            (3 / s.zoom) = true) ∧
    (∀ d t : ℚ, 0 ≤ d → (sqrtLt (d * d) t = true ↔ d < t)) := by
  refine ⟨?_, ?_, ?_⟩
  · rw [getShippingLaneAtPoint, findLaneNear_eq_none_iff]
    constructor
    · intro hall lane hm pr hpr
      have := hall lane hm
      rw [← Bool.not_eq_true, anySegmentNear_iff] at this
      push_neg at this
      simpa using this pr hpr
    · intro hall lane hm
      rw [← Bool.not_eq_true, anySegmentNear_iff]
      push_neg at hall
      intro ⟨pr, hpr, hc⟩
      exact absurd hc (by simp [hall lane hm pr hpr])
  · intro lane h
    rw [getShippingLaneAtPoint] at h
    obtain ⟨pre, post, hsplit, hpre, hhit⟩ := findLaneNear_eq_some _ _ _ _ _ h
    refine ⟨pre, post, hsplit, ?_, ?_⟩
    · intro l' hl' pr hpr
      have := hpre l' hl'
      rw [← Bool.not_eq_true, anySegmentNear_iff] at this
      push_neg at this
      simpa using this pr hpr
    · exact (anySegmentNear_iff _ _ _ _).mp hhit
  · intro d t hd
    constructor
    · intro h
      simp only [sqrtLt, Bool.and_eq_true, decide_eq_true_eq] at h
      nlinarith [h.1, h.2]
    · intro h
      have ht : 0 < t := lt_of_le_of_lt hd h
      simp only [sqrtLt, Bool.and_eq_true, decide_eq_true_eq]
      exact ⟨ht, mul_self_lt_mul_self hd h⟩

/-- Screen-space label rectangle `{x, y, width, height}`. -/
structure Box where
  x : ℚ
  y : ℚ
  width : ℚ
  height : ℚ
deriving DecidableEq

/-- The AABB overlap test used for label collision in `drawCities` and
`drawBattleZones`: `box.x < e.x + e.width && box.x + box.width > e.x &&
box.y < e.y + e.height && box.y + box.height > e.y`. -/
def boxesOverlap (a b : Box) : Bool :=
  decide (a.x < b.x + b.width) && decide (a.x + a.width > b.x) &&
  decide (a.y < b.y + b.height) && decide (a.y + a.height > b.y)

/-- The padded box built for a candidate label position: `{x: labelX - 2,
y: labelY - textHeight, width: textWidth + 4, height: textHeight + 4}`. -/
def labelBoxAt (labelX labelY textWidth textHeight : ℚ) : Box :=
  ⟨labelX - 2, labelY - textHeight, textWidth + 4, textHeight + 4⟩

/-- The candidate-position loop shared by `drawCities` and
`drawBattleZones`: offsets are tried in order, each candidate's padded box
is tested against every existing box, and the first non-colliding
candidate is returned as `bestPos = (labelX, labelY, box)`; `none` when
every candidate collides. -/
def tryLabelPositions (x y textWidth textHeight : ℚ)
    (labelBoxes : List Box) : List (ℚ × ℚ) → Option (ℚ × ℚ × Box)
  | [] => none
  | pos :: rest =>
      let labelX := x + pos.1
      let labelY := y + pos.2
      let box := labelBoxAt labelX labelY textWidth textHeight
      if labelBoxes.any (fun e => boxesOverlap box e) then
        tryLabelPositions x y textWidth textHeight labelBoxes rest
      else some (labelX, labelY, box)

/-- The four candidate offsets of `drawCities`. -/
def cityCandidates (textWidth textHeight : ℚ) : List (ℚ × ℚ) :=
  [(4, -2), (4, textHeight + 2), (-textWidth - 4, -2),
   (-textWidth - 4, textHeight + 2)]

/-- The five candidate offsets of `drawBattleZones` (right, upper right,
left, upper left, lower right). -/
def battleCandidates (markerSize textWidth textHeight : ℚ) :
    List (ℚ × ℚ) :=
  [(markerSize + 4, 3), (markerSize + 4, -textHeight),
   (-textWidth - 4, 3), (-textWidth - 4, -textHeight),
   (markerSize + 4, textHeight + 6)]

/-- Per-city label placement in `drawCities`: on success the label is
drawn and its box pushed onto `labelBoxes`; when every candidate collides
the label is skipped and the box list is unchanged. -/
def cityLabelStep (x y textWidth textHeight : ℚ) (labelBoxes : List Box) :
    List Box :=
  match tryLabelPositions x y textWidth textHeight labelBoxes
      (cityCandidates textWidth textHeight) with
  | some (_, _, box) => labelBoxes ++ [box]
  | none => labelBoxes

/-- Per-zone label placement in `drawBattleZones`: like the city step with
its own candidates, except a high-importance zone whose candidates all
collide is force-placed at the default right offset
(`x + markerSize + 4`, `y + 3`), and when the ACTIVE status indicator is
drawn (high importance, zoom above 8, hot activity — abstracted as
`showActive`) the stored box is extended by `fontSize + 4` in height
(`textHeight` is the font size). -/
def battleZoneLabelStep (x y textWidth textHeight markerSize : ℚ)
    (highImportance showActive : Bool) (labelBoxes : List Box) : List Box :=
  let placed :=
    match tryLabelPositions x y textWidth textHeight labelBoxes
        (battleCandidates markerSize textWidth textHeight) with
    | some (_, _, box) => some box
    | none =>
        if highImportance then
          some (labelBoxAt (x + markerSize + 4) (y + 3) textWidth textHeight)
        else none
  match placed with
  | some box =>
      if highImportance && showActive then
        labelBoxes ++ [{ box with height := box.height + (textHeight + 4) }]
      else labelBoxes ++ [box]
  | none => labelBoxes

/-- C7 counterexample: a high-importance battle zone whose five candidates
all collide with an existing box is force-placed at the default right
offset anyway, and the force-placed box intersects the existing one — the
placement is not always collision-free and the renderer does force-place. -/
theorem battleZone_forcePlace_overlaps :
    battleZoneLabelStep 0 0 10 10 2 true false
        [{ x := -100, y := -100, width := 200, height := 200 }] =
      [{ x := -100, y := -100, width := 200, height := 200 },
       { x := 4, y := -7, width := 14, height := 14 }] ∧
    boxesOverlap { x := 4, y := -7, width := 14, height := 14 }
      { x := -100, y := -100, width := 200, height := 200 } = true := by
  constructor
  · norm_num [battleZoneLabelStep, tryLabelPositions, battleCandidates,
      labelBoxAt, boxesOverlap]
  · norm_num [boxesOverlap]

theorem tryLabelPositions_none_iff (x y w h : ℚ) (existing : List Box)
    (cands : List (ℚ × ℚ)) :
    tryLabelPositions x y w h existing cands = none ↔
      ∀ p ∈ cands,
        existing.any
          (fun e => boxesOverlap (labelBoxAt (x + p.1) (y + p.2) w h) e) =
          true := by
  induction cands with
  | nil => simp [tryLabelPositions]
  | cons p rest ih =>
      unfold tryLabelPositions
      dsimp only
      split
      · rename_i hcol
        rw [ih]
        constructor
        · intro hall q hq
          rcases List.mem_cons.mp hq with rfl | hq
          · exact hcol
          · exact hall q hq
        · intro hall q hq
          exact hall q (List.mem_cons_of_mem p hq)
      · rename_i hcol
        constructor
        · intro hc; exact absurd hc (by simp)
        · intro hall
          exact absurd (hall p (List.mem_cons_self p rest)) hcol

theorem tryLabelPositions_some (x y w h : ℚ) (existing : List Box)
    (cands : List (ℚ × ℚ)) (lx ly : ℚ) (box : Box) :
    tryLabelPositions x y w h existing cands = some (lx, ly, box) →
      (∀ b ∈ existing, boxesOverlap box b = false) ∧
      ∃ pre p post, cands = pre ++ p :: post ∧
        (∀ q ∈ pre,
          existing.any
            (fun e => boxesOverlap (labelBoxAt (x + q.1) (y + q.2) w h) e) =
            true) ∧
        lx = x + p.1 ∧ ly = y + p.2 ∧ box = labelBoxAt lx ly w h := by
  induction cands with
  | nil => intro hc; exact absurd hc (by simp [tryLabelPositions])
  | cons p rest ih =>
      intro hc
      unfold tryLabelPositions at hc
      dsimp only at hc
      split at hc
      · rename_i hcol
        obtain ⟨hnc, pre, q, post, hsplit, hpre, hlx, hly, hbox⟩ := ih hc
        refine ⟨hnc, p :: pre, q, post, by rw [hsplit]; rfl, ?_, hlx, hly, hbox⟩
        intro r hr
        rcases List.mem_cons.mp hr with rfl | hr
        · exact hcol
        · exact hpre r hr
      · rename_i hcol
        obtain ⟨h1, h2, h3⟩ : lx = x + p.1 ∧ ly = y + p.2 ∧
            labelBoxAt (x + p.1) (y + p.2) w h = box := by
          have := hc
          simp only [Option.some.injEq, Prod.mk.injEq] at this
          exact ⟨this.1.symm, this.2.1.symm, this.2.2⟩
        refine ⟨?_, [], p, rest, rfl, by simp, h1, h2, by rw [h1, h2, h3]⟩
        intro b hb
        rw [← h3]
        have := List.any_eq_false.mp (Bool.not_eq_true _ ▸ hcol) b hb
        exact Bool.not_eq_true _ ▸ this

/-- C7 (amended) -- The candidate search returns the first offset whose
padded box passes the AABB test against every existing box, and the
returned box intersects none of them; when every candidate collides,
`drawCities` skips the label entirely, so a city-label step either leaves
the box list unchanged or appends one box that intersects no earlier box.
(`drawBattleZones` is the exception: it force-places high-importance
labels at the default offset when all candidates collide — see the
counterexample — so only non-forced placements are collision-free.) -/
theorem placeLabel_spec (x y w h : ℚ) (existing : List Box)
    (cands : List (ℚ × ℚ)) :
    (tryLabelPositions x y w h existing cands = none ↔
      ∀ p ∈ cands,
        existing.any
          (fun e => boxesOverlap (labelBoxAt (x + p.1) (y + p.2) w h) e) =
          true) ∧
    (∀ lx ly box, tryLabelPositions x y w h existing cands =
        some (lx, ly, box) →
      (∀ b ∈ existing, boxesOverlap box b = false) ∧
      ∃ pre p post, cands = pre ++ p :: post ∧
        (∀ q ∈ pre,
          existing.any
            (fun e => boxesOverlap (labelBoxAt (x + q.1) (y + q.2) w h) e) =
            true) ∧
        lx = x + p.1 ∧ ly = y + p.2 ∧ box = labelBoxAt lx ly w h) ∧
    (cityLabelStep x y w h existing = existing ∨
      ∃ box, cityLabelStep x y w h existing = existing ++ [box] ∧
        ∀ b ∈ existing, boxesOverlap box b = false) := by
  refine ⟨tryLabelPositions_none_iff x y w h existing cands,
    fun lx ly box => tryLabelPositions_some x y w h existing cands lx ly box,
    ?_⟩
  cases hc : tryLabelPositions x y w h existing
      (cityCandidates w h) with
  | none => left; simp [cityLabelStep, hc]
  | some v =>
      right
      obtain ⟨lx, ly, box⟩ := v
      exact ⟨box, by simp [cityLabelStep, hc],
        (tryLabelPositions_some x y w h existing _ lx ly box hc).1⟩

end OsintMap
